import Mathlib

/-!
Verification of the table renderer of the ts-markdown repository
(source file: the table renderer module, containing `tableRenderer`,
`getTableMarkdown`, `buildDataRows`, `renderCellText`, `padAlign`,
`buildDividerRow`, `buildHeaderRow`, `escapePipes` and friends).

The development shallowly embeds the TypeScript source into Lean:
JavaScript strings become `String`, arrays become `List`, plain objects
used as maps become association lists `List (String × _)`, `undefined`
becomes `Option.none`, and thrown errors become `Except.error`.
The external collaborator `renderEntries` (src/rendering, whose source is
not part of this snapshot) is modelled from the specification and marked
as such in its doc comment.
-/

/-! ## Basic string utilities mirroring the JavaScript string API -/

/-- Model of JavaScript `String.prototype.padEnd(targetLength, fill)` for a
single-character fill: when the string is at least `targetLength` long the
result is unchanged (`Nat` subtraction yields zero padding), otherwise fill
characters are appended up to `targetLength`. -/
def padEnd (s : String) (targetLength : Nat) (fill : Char) : String :=
  s ++ String.mk (List.replicate (targetLength - s.length) fill)

/-- Model of JavaScript `String.prototype.padStart(targetLength, fill)` for a
single-character fill. JavaScript coerces a fractional or negative
`targetLength` through `ToLength` (truncation, clamping at 0); with `Nat`
arithmetic the caller performs the same truncation. -/
def padStart (s : String) (targetLength : Nat) (fill : Char) : String :=
  String.mk (List.replicate (targetLength - s.length) fill) ++ s

/-- Model of JavaScript `Array.prototype.join(sep)` on an array of strings. -/
def joinWith (sep : String) : List String → String
  | [] => ""
  | [x] => x
  | x :: xs => x ++ sep ++ joinWith sep xs

/-- Splitting a character list at every occurrence of `c`; mirrors
JavaScript `String.prototype.split(c)` for a single-character separator
(the result always has `count c + 1` groups, with empty groups kept). -/
def splitOnChar (c : Char) : List Char → List (List Char)
  | [] => [[]]
  | x :: xs =>
    match splitOnChar c xs with
    | [] => [[x]]
    | g :: gs => if x = c then [] :: g :: gs else (x :: g) :: gs

/-- The number of lines of a string in the sense of the specification's
`markdown.split('\n').length`. -/
def lineCount (s : String) : Nat :=
  (splitOnChar '\n' s.data).length

/-- Model of JavaScript `String.prototype.replaceAll(c, replacement)` for a
single-character pattern `c`: every occurrence of `c` is replaced by
`replacement`. -/
def replaceAllChar (c : Char) (replacement : String) (s : String) : String :=
  String.mk (s.data.foldr
    (fun x acc => (if x = c then replacement.data else [x]) ++ acc) [])

/-! ## The data model of the table renderer -/

/-- A table column header: either a bare name (`string`) or a structured
descriptor `{ name, field?, align? }`.  In the TypeScript source `align`
has type `'left' | 'center' | 'right'`, but since the in-place escaping
pass rewrites every string value of the entry (including `align`), the
embedding keeps `align` as an arbitrary optional string and the alignment
tests compare against the literals, exactly as the source does. -/
inductive TableColumn where
  | bare (name : String)
  | structured (name : String) (field : Option String) (align : Option String)
deriving DecidableEq, Repr

/-- A row of table data: either a positional array of cells or a named
mapping from column field name to cell (a JavaScript object, embedded as an
association list with the source's first-key-wins lookup).  Cells are
embedded as the `SupportedPrimitive` string case; nested rich-text entries
are resolved by the external renderer and enter this development only
through their resolved text. -/
inductive TableRowValue where
  | positional (cells : List String)
  | mapping (fields : List (String × String))
deriving DecidableEq, Repr

/-- The `table` property of a table entry: `{ columns, rows }`. -/
structure TableData where
  columns : List TableColumn
  rows : List TableRowValue
deriving DecidableEq, Repr

/-- A table entry (`TableEntry` in the source): the `table` data plus the
optional `append`, `pipeReplacer` and `prefixCellValues` properties. -/
structure TableEntry where
  table : TableData
  append : Option String := none
  pipeReplacer : Option (String → String) := none
  prefixCellValues : Option Bool := none

/-- Render options; the source field is named `prefix`, which is reserved
in Lean, so the embedding calls it `prefixStr`. -/
structure RenderOptions where
  prefixStr : String
deriving DecidableEq, Repr

/-- The result record `{ markdown, blockLevel }` returned by a renderer. -/
structure RenderResult where
  markdown : String
  blockLevel : Bool
deriving DecidableEq, Repr

/-! ## The escaper (`defaultPipeReplacer`, `escapePipes`) -/

/-- Source `defaultPipeReplacer`: `content.replaceAll('|', '&#124;')`. -/
def defaultPipeReplacer (content : String) : String :=
  replaceAllChar '|' "&#124;" content

/-- A generic JavaScript value, used to state the behaviour of the generic
escaping walk `escapePipes` exactly as the source has it: strings, arrays,
plain objects, functions (`typeof 'function'`) and all other primitives. -/
inductive Jval where
  | str (s : String)
  | arr (elems : List Jval)
  | obj (fields : List (String × Jval))
  | fn
  | other

/-- Source `escapePipes(target, pipeReplacer)`: strings are replaced via the
replacer; array elements and object property values are escaped recursively
in place.  Because a JavaScript array is also an object (`typeof [] ===
'object'` and `Object.keys` of an array yields its indices), the source
escapes every array element twice: once in the `Array.isArray` branch and
once more in the object branch.  The equation for arrays is therefore
`escapePipes r (.arr es) = .arr (es.map (fun e => escapePipes r (escapePipes r e)))`,
which is not structurally decreasing; the definition below uses the
equivalent structural form with a doubled replacer, and the theorem
`escapePipes_arr_source` below proves that it satisfies the source's
defining equation. -/
def escapePipes (pipeReplacer : String → String) : Jval → Jval
  | .str s => .str (pipeReplacer s)
  | .arr elems => .arr (elems.attach.map fun e =>
      escapePipes (fun t => pipeReplacer (pipeReplacer t)) e.1)
  | .obj fields => .obj (fields.attach.map fun kv =>
      (kv.1.1, escapePipes pipeReplacer kv.1.2))
  | .fn => .fn
  | .other => .other
decreasing_by
  · have h1 := List.sizeOf_lt_of_mem e.2
    simp only [Jval.arr.sizeOf_spec]
    omega
  · have h1 := List.sizeOf_lt_of_mem kv.2
    have h2 : sizeOf kv.1.2 < sizeOf kv.1 := by
      obtain ⟨a, b⟩ := kv.1
      simp only [Prod.mk.sizeOf_spec]
      omega
    simp only [Jval.obj.sizeOf_spec]
    omega

/-- The effect of the in-place `escapePipes(entry, entry.pipeReplacer)` call
on a column.  A column is an element of the `columns` array, hence is
escaped twice (see `escapePipes`); `applied` below is already the doubled
replacer, so bare names and the structured `name`/`field`/`align` string
values each receive it once.  Object keys are never escaped (the source
rewrites `assignable[key]`, not the keys). -/
def escapeColumn (applied : String → String) : TableColumn → TableColumn
  | .bare name => .bare (applied name)
  | .structured name fld align => .structured (applied name) (fld.map applied) (align.map applied)

/-- The effect of the escaping walk on a row (an element of the `rows`
array, hence handed the doubled replacer `applied`).  A mapping row is an
object: its values receive `applied` once and its keys are untouched.  A
positional row is itself an array, so its cells are escaped twice more,
receiving `applied` twice. -/
def escapeRow (applied : String → String) : TableRowValue → TableRowValue
  | .positional cells => .positional (cells.map fun c => applied (applied c))
  | .mapping fields => .mapping (fields.map fun kv => (kv.1, applied kv.2))

/-- The effect of `escapePipes(entry, entry.pipeReplacer)` on a whole table
entry: the entry object's own string values (`append`) are escaped once,
the `table` object's `columns` and `rows` arrays escape their elements with
the doubled replacer, and the function-valued `pipeReplacer` and the
boolean `prefixCellValues` pass through unchanged.  The theorem
`escapeTableEntry_models_escapePipes` below proves this agrees with the
generic walk `escapePipes` on the JavaScript-object encoding of the entry. -/
def escapeTableEntry (r : String → String) (entry : TableEntry) : TableEntry :=
  { table :=
      { columns := entry.table.columns.map (escapeColumn fun t => r (r t))
        rows := entry.table.rows.map (escapeRow fun t => r (r t)) }
    append := entry.append.map r
    pipeReplacer := entry.pipeReplacer
    prefixCellValues := entry.prefixCellValues }

/-! ## Cell text rendering (external collaborator, modelled from the spec) -/

/-- Modelled from the spec: the external rendering interface `renderEntries`
(from src/rendering, not part of this source snapshot).  Per the
specification it "resolves one cell's value ... into a single-line string by
delegating to the external entry-rendering interface" and render options
carry "at minimum a `prefix` string applied to each rendered line"; a string
cell resolves to its own text with the prefix applied to each of its lines. -/
def renderEntries (value : String) (options : RenderOptions) : String :=
  joinWith "\n"
    ((splitOnChar '\n' value.data).map fun line => options.prefixStr ++ String.mk line)

/-- Source `renderCellText(value, options, prefixCellValues = true)`:
delegates to `renderEntries` with `options.prefix` replaced by the empty
string when `prefixCellValues` is false. -/
def renderCellText (value : String) (options : RenderOptions)
    (prefixCellValues : Bool := true) : String :=
  renderEntries value
    { options with prefixStr := if prefixCellValues then options.prefixStr else "" }

/-- Modelled from the spec: the source's data-row expression
`renderCellText(row[prop], options, prefixCellValues) ?? ''` where
`row[prop]` may be `undefined`; per the specification a missing value
"yields `undefined`, later rendered as empty string in data rows". -/
def renderCellTextOrEmpty (value : Option String) (options : RenderOptions)
    (prefixCellValues : Bool) : String :=
  match value with
  | some v => renderCellText v options prefixCellValues
  | none => ""

/-! ## Column helpers -/

/-- Source `getColumnName`. -/
def getColumnName : TableColumn → String
  | .bare s => s
  | .structured name _ _ => name

/-- Source `getColumnHeaderTextLength`. -/
def getColumnHeaderTextLength : TableColumn → Nat
  | .bare s => s.length
  | .structured name _ _ => name.length

/-- Source `getDataRowPropertyName`: a bare column is its own field key; a
structured column uses `field ?? name`. -/
def getDataRowPropertyName : TableColumn → String
  | .bare s => s
  | .structured name fld _ => fld.getD name

/-- Source `padAlign(cellText, cellWidth, column)`.  The first branch fires
for bare string columns and for `column.align === 'left' || !column.align`
(JavaScript falsiness: `undefined` or the empty string).  In the `center`
branch the source computes
`cellText.padStart(cellText.length + Math.floor(cellWidth - cellText.length) / 2)`;
the misplaced `Math.floor` leaves a possibly fractional target which
JavaScript's `ToLength` truncates, so the effective target is
`cellText.length + (cellWidth - cellText.length) / 2` in `Nat` arithmetic. -/
def padAlign (cellText : String) (cellWidth : Nat) (column : TableColumn) : String :=
  match column with
  | .bare _ => padEnd cellText cellWidth ' '
  | .structured _ _ align =>
    if align = some "left" ∨ align = none ∨ align = some "" then
      padEnd cellText cellWidth ' '
    else if align = some "center" then
      padEnd (padStart cellText (cellText.length + (cellWidth - cellText.length) / 2) ' ')
        cellWidth ' '
    else if align = some "right" then
      padStart cellText cellWidth ' '
    else cellText

/-- Source `getLeftSideAlignmentCharacter`: a space for bare columns, `:`
for `left`/`center` aligned structured columns, a space otherwise. -/
def getLeftSideAlignmentCharacter : TableColumn → String
  | .bare _ => " "
  | .structured _ _ align => if align = some "left" ∨ align = some "center" then ":" else " "

/-- Source `getRightSideAlignmentCharacter`. -/
def getRightSideAlignmentCharacter : TableColumn → String
  | .bare _ => " "
  | .structured _ _ align => if align = some "right" ∨ align = some "center" then ":" else " "

/-! ## Row construction -/

/-- Source `buildDividerRow(cellWidths, columns)`: per cell width emit the
left alignment character, `cellWidth` dashes (`''.padStart(cellWidth, '-')`)
and the right alignment character, joined by `|` and wrapped in `|`.  The
source indexes `columns[index]` while mapping over `cellWidths`; the
pipeline always passes lists of equal length (one width per column), which
the embedding expresses by zipping. -/
def buildDividerRow (cellWidths : List Nat) (columns : List TableColumn) : String :=
  "|" ++ joinWith "|"
    ((cellWidths.zip columns).map fun wc =>
      getLeftSideAlignmentCharacter wc.2 ++ padStart "" wc.1 '-' ++
        getRightSideAlignmentCharacter wc.2) ++ "|"

/-- Source `buildHeaderRow(entry, cellWidths, columns)`: pads each column
display name to its width (the source maps over `entry.table.columns`,
indexing `cellWidths[index]` and `columns[index]`; the caller passes
`columns = entry.table.columns` and one width per column, expressed here by
zipping). -/
def buildHeaderRow (entry : TableEntry) (cellWidths : List Nat)
    (columns : List TableColumn) : String :=
  "| " ++ joinWith " | "
    ((entry.table.columns.zip (cellWidths.zip columns)).map fun cwc =>
      padAlign (getColumnName cwc.1) cwc.2.1 cwc.2.2) ++ " |"

/-- The cell list of one data row, as built inside the source's
`buildDataRows` row lambda.  For a positional (array) row the source maps
over the row's own cells (`row.map((cell, index) => ...)`) — one output
cell per row element — looking up `cellWidths[index]` and
`entry.table.columns[index]`.  For a mapping row it reduces over the
`columns` parameter, looking up the resolved field key in the row and
rendering a missing value as the empty string.  The source's positional
branch throws a `TypeError` when the row is longer than `columns` (the
column lookup yields `undefined`); theorems about positional rows therefore
carry the corresponding length hypothesis.  The index-based lookups over
equal-length lists are expressed by zipping. -/
def buildDataRowCells (entry : TableEntry) (cellWidths : List Nat)
    (columns : List TableColumn) (options : RenderOptions) :
    TableRowValue → List String
  | .positional cells =>
    (cells.zip (cellWidths.zip entry.table.columns)).map fun cwc =>
      padAlign (renderCellText cwc.1 options (entry.prefixCellValues.getD true))
        cwc.2.1 cwc.2.2
  | .mapping fields =>
    (columns.zip (cellWidths.zip entry.table.columns)).map fun cwc =>
      padAlign
        (renderCellTextOrEmpty (fields.lookup (getDataRowPropertyName cwc.1)) options
          (entry.prefixCellValues.getD true))
        cwc.2.1 cwc.2.2

/-- Source `buildDataRows(entry, cellWidths, columns, options)`: one
`"| " + cells.join(' | ') + " |"` line per row. -/
def buildDataRows (entry : TableEntry) (cellWidths : List Nat)
    (columns : List TableColumn) (options : RenderOptions) : List String :=
  entry.table.rows.map fun row =>
    "| " ++ joinWith " | " (buildDataRowCells entry cellWidths columns options row) ++ " |"

/-! ## Width computation and assembly -/

/-- The per-column row value resolution used by the width loop of
`getTableMarkdown`: `Array.isArray(curr) ? curr[i] : curr[getDataRowPropertyName(column)]`. -/
def rowColumnValue (column : TableColumn) (i : Nat) : TableRowValue → Option String
  | .positional cells => cells[i]?
  | .mapping fields => fields.lookup (getDataRowPropertyName column)

/-- The width loop of `getTableMarkdown` (its `for` loop over
`0 ≤ i < columnCount`): candidate widths are the header text length
followed by the lengths of the rendered texts of every row whose value in
column `i` is defined, clamped by
`reduce((prev, curr) => Math.max(3, prev, curr), 0)`.

The source guards each rendered cell with `typeof result === 'string'` and
throws "Unknown table rendering scenario encountered. Multi-line table cell
content is not supported." otherwise; since `renderCellText` returns the
string produced by the external `renderEntries` (spec contract:
`renderEntries(sequenceOfOneEntry, options) -> string`), that guard is
always satisfied — even for strings containing line breaks — and the throw
is unreachable, so the loop is total. -/
def computeCellWidths (entry : TableEntry) (options : RenderOptions) : List Nat :=
  entry.table.columns.enum.map fun ic =>
    let columnCellTexts : List Nat :=
      getColumnHeaderTextLength ic.2 ::
        ((entry.table.rows.foldl
          (fun prev curr =>
            (rowColumnValue ic.2 ic.1 curr).elim prev fun value =>
              prev ++ [renderCellText value options (entry.prefixCellValues.getD true)])
          []).map String.length)
    columnCellTexts.foldl (fun prev curr => max 3 (max prev curr)) 0

/-- Source `getTableMarkdown(entry, options)`: escape the entry in place
with `entry.pipeReplacer` (defaulting to `defaultPipeReplacer`), compute
the cell widths, then join the header row, divider row and data rows with
newlines.  (The source also computes a local `columnNames` list that it
never uses.) -/
def getTableMarkdown (entry0 : TableEntry) (options : RenderOptions) : String :=
  let entry := escapeTableEntry (entry0.pipeReplacer.getD defaultPipeReplacer) entry0
  let cellWidths := computeCellWidths entry options
  joinWith "\n"
    (buildHeaderRow entry cellWidths entry.table.columns ::
      buildDividerRow cellWidths entry.table.columns ::
        buildDataRows entry cellWidths entry.table.columns options)

/-- The argument supplied to `tableRenderer`: either an entry carrying the
`table` property (so that the source's `'table' in entry` test succeeds) or
any other entry object, carried as its raw property list. -/
inductive InputEntry where
  | tableEntry (e : TableEntry)
  | otherEntry (fields : List (String × Jval))

/-- Source `tableRenderer(entry, options)`: if the entry has the `table`
property, render it and mark the result block-level; otherwise throw
"Entry is not a table entry. Unable to render.". -/
def tableRenderer (entry : InputEntry) (options : RenderOptions) :
    Except String RenderResult :=
  match entry with
  | .tableEntry e => .ok { markdown := getTableMarkdown e options, blockLevel := true }
  | .otherEntry _ => .error "Entry is not a table entry. Unable to render."

/-- `tableRenderer` together with the post-call state of the caller's entry
object, making the source's in-place mutation observable: on the success
path the entry has been destructively escaped by `getTableMarkdown`; on the
error path the throw happens before `escapePipes` is ever called, so the
entry is returned unmodified. -/
def tableRendererWithState (entry : InputEntry) (options : RenderOptions) :
    InputEntry × Except String RenderResult :=
  match entry with
  | .tableEntry e =>
    (.tableEntry (escapeTableEntry (e.pipeReplacer.getD defaultPipeReplacer) e),
      .ok { markdown := getTableMarkdown e options, blockLevel := true })
  | .otherEntry fields =>
    (.otherEntry fields, .error "Entry is not a table entry. Unable to render.")

/-! ## Specification-side predicates and concrete inputs -/

/-- The column is left- or center-aligned in the sense of the claims (a
bare string column is neither). -/
def isLeftOrCenterAligned : TableColumn → Bool
  | .bare _ => false
  | .structured _ _ align => align == some "left" || align == some "center"

/-- The column is right- or center-aligned in the sense of the claims. -/
def isRightOrCenterAligned : TableColumn → Bool
  | .bare _ => false
  | .structured _ _ align => align == some "right" || align == some "center"

/-- The column's alignment is one of the values admitted by the TypeScript
type `'left' | 'center' | 'right'`, or absent. -/
def alignValid : TableColumn → Bool
  | .bare _ => true
  | .structured _ _ align =>
    align == none || align == some "left" || align == some "center" ||
      align == some "right"

/-- Every cell text of the row that the data-row phase renders is free of
line breaks. -/
def rowSingleLine (pcv : Bool) (options : RenderOptions) : TableRowValue → Prop
  | .positional cells => ∀ c ∈ cells, '\n' ∉ (renderCellText c options pcv).data
  | .mapping fields => ∀ kv ∈ fields, '\n' ∉ (renderCellText kv.2 options pcv).data

instance (pcv : Bool) (options : RenderOptions) :
    ∀ row, Decidable (rowSingleLine pcv options row)
  | .positional cells =>
    inferInstanceAs (Decidable (∀ c ∈ cells, '\n' ∉ (renderCellText c options pcv).data))
  | .mapping fields =>
    inferInstanceAs (Decidable (∀ kv ∈ fields, '\n' ∉ (renderCellText kv.2 options pcv).data))

/-- All column display names and all rendered cell texts of the entry are
single-line (no `'\n'`).  This is the premise under which the table's line
structure is as the specification describes. -/
def SingleLineEntry (e : TableEntry) (options : RenderOptions) : Prop :=
  (∀ col ∈ e.table.columns, '\n' ∉ (getColumnName col).data) ∧
  (∀ row ∈ e.table.rows, rowSingleLine (e.prefixCellValues.getD true) options row)

instance (e : TableEntry) (options : RenderOptions) :
    Decidable (SingleLineEntry e options) :=
  inferInstanceAs (Decidable (_ ∧ _))

/-- A positional row has at most as many cells as there are columns (the
source crashes with a `TypeError` on longer positional rows, which the
total embedding does not model; theorems stay inside this domain). -/
def rowFits (n : Nat) : TableRowValue → Prop
  | .positional cells => cells.length ≤ n
  | .mapping _ => True

instance (n : Nat) : ∀ row, Decidable (rowFits n row)
  | .positional cells => inferInstanceAs (Decidable (cells.length ≤ n))
  | .mapping _ => inferInstanceAs (Decidable True)

/-- Every positional row of the entry fits the column count. -/
def RowsFit (e : TableEntry) : Prop :=
  ∀ row ∈ e.table.rows, rowFits e.table.columns.length row

instance (e : TableEntry) : Decidable (RowsFit e) :=
  inferInstanceAs (Decidable (∀ row ∈ e.table.rows, rowFits e.table.columns.length row))

/-- Render options with an empty prefix. -/
def optsEmpty : RenderOptions := { prefixStr := "" }

/-- A table entry one of whose cells resolves to a two-line string. -/
def multilineEntry : TableEntry :=
  { table := { columns := [.bare "Name"], rows := [.positional ["line1\nline2"]] } }

/-- Two columns but a positional row with a single cell. -/
def shortRowEntry : TableEntry :=
  { table := { columns := [.bare "A", .bare "B"], rows := [.positional ["x"]] } }

/-- A structured column whose field contains a pipe, and a mapping row
whose literal key is the escaped form of that field. -/
def escapedKeyEntry : TableEntry :=
  { table := { columns := [.structured "H" (some "a|b") none],
               rows := [.mapping [("a&#124;b", "X")]] } }

/-- A structured column whose field contains a pipe, and a mapping row
keyed by the original (unescaped) field. -/
def plainKeyEntry : TableEntry :=
  { table := { columns := [.structured "H" (some "a|b") none],
               rows := [.mapping [("a|b", "val")]] } }

/-- A one-column entry with one positional row and one mapping row that
lacks the column's key. -/
def widthSampleEntry : TableEntry :=
  { table := { columns := [.bare "Name"], rows := [.positional ["Al"], .mapping []] } }

/-- A right-aligned column with no rows (so its width is the minimum 3). -/
def rightAlignedEntry : TableEntry :=
  { table := { columns := [.structured "A" (some "k") (some "right")], rows := [] } }

/-- A single-line one-column, one-row entry. -/
def simpleEntry : TableEntry :=
  { table := { columns := [.bare "Name"], rows := [.positional ["Al"]] } }

/-! ## Shared lemmas: strings and splitting -/

theorem data_mk (l : List Char) : (String.mk l).data = l := rfl

theorem length_eq_data_length (s : String) : s.length = s.data.length := rfl

theorem splitOnChar_ne_nil (c : Char) (l : List Char) : splitOnChar c l ≠ [] := by
  induction l with
  | nil => simp [splitOnChar]
  | cons x xs ih =>
    simp only [splitOnChar]
    cases h : splitOnChar c xs with
    | nil => simp
    | cons g gs =>
      by_cases hx : x = c <;> simp [hx]

theorem splitOnChar_length (c : Char) (l : List Char) :
    (splitOnChar c l).length = l.count c + 1 := by
  induction l with
  | nil => simp [splitOnChar]
  | cons x xs ih =>
    cases h : splitOnChar c xs with
    | nil => exact absurd h (splitOnChar_ne_nil c xs)
    | cons g gs =>
      rw [h] at ih
      simp only [List.length_cons] at ih
      have hsplit : splitOnChar c (x :: xs) =
          if x = c then [] :: g :: gs else (x :: g) :: gs := by
        simp only [splitOnChar, h]
      by_cases hx : x = c
      · rw [hsplit, if_pos hx, hx]
        simp only [List.length_cons, List.count_cons_self]
        omega
      · rw [hsplit, if_neg hx]
        simp only [List.length_cons, List.count_cons, beq_iff_eq, if_neg hx]
        omega

theorem splitOnChar_of_not_mem {c : Char} {l : List Char} (h : c ∉ l) :
    splitOnChar c l = [l] := by
  induction l with
  | nil => rfl
  | cons x xs ih =>
    have hx : x ≠ c := fun hc => h (hc ▸ List.mem_cons_self x xs)
    have hxs : c ∉ xs := fun hc => h (List.mem_cons_of_mem x hc)
    simp only [splitOnChar, ih hxs, if_neg hx]

theorem splitOnChar_append_cons {c : Char} {l₁ : List Char} (l₂ : List Char)
    (h : c ∉ l₁) :
    splitOnChar c (l₁ ++ c :: l₂) = l₁ :: splitOnChar c l₂ := by
  induction l₁ with
  | nil =>
    simp only [List.nil_append, splitOnChar]
    cases hs : splitOnChar c l₂ with
    | nil => exact absurd hs (splitOnChar_ne_nil c l₂)
    | cons g gs => simp
  | cons x xs ih =>
    have hx : x ≠ c := fun hc => h (hc ▸ List.mem_cons_self x xs)
    have hxs : c ∉ xs := fun hc => h (List.mem_cons_of_mem x hc)
    show splitOnChar c (x :: (xs ++ c :: l₂)) = (x :: xs) :: splitOnChar c l₂
    simp only [splitOnChar]
    rw [ih hxs]
    simp [hx]

/-! ## Shared lemmas: the default pipe replacer -/

theorem replaceAllChar_data (c : Char) (rep : String) (s : String) :
    (replaceAllChar c rep s).data =
      s.data.foldr (fun x acc => (if x = c then rep.data else [x]) ++ acc) [] := rfl

theorem not_mem_replaceAllChar {c : Char} {rep : String} (h : c ∉ rep.data)
    (s : String) : c ∉ (replaceAllChar c rep s).data := by
  rw [replaceAllChar_data]
  induction s.data with
  | nil => simp
  | cons x xs ih =>
    simp only [List.foldr_cons, List.mem_append]
    rintro (hmem | hmem)
    · by_cases hx : x = c
      · rw [if_pos hx] at hmem; exact h hmem
      · rw [if_neg hx] at hmem
        simp only [List.mem_singleton] at hmem
        exact hx (hmem ▸ rfl)
    · exact ih hmem

theorem foldr_replace_of_not_mem {c : Char} {rep : List Char} :
    ∀ {l : List Char}, c ∉ l →
      l.foldr (fun x acc => (if x = c then rep else [x]) ++ acc) [] = l := by
  intro l h
  induction l with
  | nil => rfl
  | cons x xs ih =>
    have hx : x ≠ c := fun hc => h (hc ▸ List.mem_cons_self x xs)
    have hxs : c ∉ xs := fun hc => h (List.mem_cons_of_mem x hc)
    simp only [List.foldr_cons, if_neg hx, List.singleton_append, ih hxs]

theorem replaceAllChar_of_not_mem {c : Char} {s : String} (rep : String)
    (h : c ∉ s.data) : replaceAllChar c rep s = s := by
  apply String.ext
  rw [replaceAllChar_data]
  exact foldr_replace_of_not_mem h

theorem pipe_not_mem_defaultPipeReplacer (s : String) :
    '|' ∉ (defaultPipeReplacer s).data := by
  have : '|' ∉ ("&#124;" : String).data := by decide
  exact not_mem_replaceAllChar this s

theorem defaultPipeReplacer_idem (s : String) :
    defaultPipeReplacer (defaultPipeReplacer s) = defaultPipeReplacer s :=
  replaceAllChar_of_not_mem "&#124;" (pipe_not_mem_defaultPipeReplacer s)

theorem defaultPipeReplacer_ne_of_mem {s : String} (h : '|' ∈ s.data) :
    defaultPipeReplacer s ≠ s := by
  intro he
  exact pipe_not_mem_defaultPipeReplacer s (by rw [he]; exact h)

/-! ## Shared lemmas: joining and counting -/

theorem count_data_joinWith (ch : Char) (sep : String) (parts : List String)
    (hne : parts ≠ []) :
    (joinWith sep parts).data.count ch =
      (parts.map fun p => p.data.count ch).sum +
        (parts.length - 1) * sep.data.count ch := by
  induction parts with
  | nil => exact absurd rfl hne
  | cons x xs ih =>
    cases xs with
    | nil => simp [joinWith]
    | cons y ys =>
      have hne2 : y :: ys ≠ [] := by simp
      have := ih hne2
      show ((x ++ sep ++ joinWith sep (y :: ys)).data.count ch) = _
      rw [String.data_append, String.data_append, List.count_append,
        List.count_append, this]
      simp only [List.map_cons, List.sum_cons, List.length_cons,
        Nat.add_sub_cancel]
      have hdist : (ys.length + 1) * sep.data.count ch =
          ys.length * sep.data.count ch + sep.data.count ch := by ring
      omega

theorem count_data_joinWith_zero {ch : Char} {sep : String} {parts : List String}
    (hp : ∀ p ∈ parts, p.data.count ch = 0) (hs : sep.data.count ch = 0) :
    (joinWith sep parts).data.count ch = 0 := by
  cases parts with
  | nil => simp [joinWith]
  | cons x xs =>
    rw [count_data_joinWith ch sep (x :: xs) (by simp)]
    have : ((x :: xs).map fun p => p.data.count ch) = (x :: xs).map fun _ => 0 :=
      List.map_congr_left fun p hmem => hp p hmem
    rw [this, hs]
    simp

/-! ## Shared lemmas: padding -/

theorem padEnd_data (s : String) (w : Nat) (fill : Char) :
    (padEnd s w fill).data = s.data ++ List.replicate (w - s.length) fill := by
  rw [padEnd, String.data_append]

theorem padStart_data (s : String) (w : Nat) (fill : Char) :
    (padStart s w fill).data = List.replicate (w - s.length) fill ++ s.data := by
  rw [padStart, String.data_append]

theorem count_data_padEnd (ch : Char) (s : String) (w : Nat) {fill : Char}
    (h : fill ≠ ch) : (padEnd s w fill).data.count ch = s.data.count ch := by
  rw [padEnd_data, List.count_append, List.count_replicate]
  simp [h]

theorem count_data_padStart (ch : Char) (s : String) (w : Nat) {fill : Char}
    (h : fill ≠ ch) : (padStart s w fill).data.count ch = s.data.count ch := by
  rw [padStart_data, List.count_append, List.count_replicate]
  simp [h]

theorem count_data_padAlign (ch : Char) (h : (' ' : Char) ≠ ch) (t : String)
    (w : Nat) (c : TableColumn) :
    (padAlign t w c).data.count ch = t.data.count ch := by
  cases c with
  | bare name => exact count_data_padEnd ch t w h
  | structured name fld align =>
    simp only [padAlign]
    split
    · exact count_data_padEnd ch t w h
    · split
      · rw [count_data_padEnd ch _ w h, count_data_padStart ch t _ h]
      · split
        · exact count_data_padStart ch t w h
        · rfl

/-! ## Shared lemmas: list helpers -/

theorem foldl_elim_push {α β γ : Type} (g : α → Option β) (f : β → γ) :
    ∀ (l : List α) (acc : List γ),
      l.foldl (fun prev curr => (g curr).elim prev fun v => prev ++ [f v]) acc =
        acc ++ (l.filterMap g).map f := by
  intro l
  induction l with
  | nil => intro acc; simp
  | cons x xs ih =>
    intro acc
    simp only [List.foldl_cons]
    cases hx : g x with
    | none => rw [ih]; simp [List.filterMap_cons, hx, Option.elim]
    | some v => rw [ih]; simp [List.filterMap_cons, hx, Option.elim]

theorem foldl_max3 (x : Nat) (l : List Nat) :
    (x :: l).foldl (fun prev curr => max 3 (max prev curr)) 0 =
      max 3 (max x (l.foldr max 0)) := by
  suffices h : ∀ (l : List Nat) (a : Nat), 3 ≤ a →
      l.foldl (fun prev curr => max 3 (max prev curr)) a = max a (l.foldr max 0) by
    have h0 : (x :: l).foldl (fun prev curr => max 3 (max prev curr)) 0 =
        l.foldl (fun prev curr => max 3 (max prev curr)) (max 3 (max 0 x)) := by
      simp [List.foldl_cons]
    rw [h0, h l (max 3 (max 0 x)) (le_max_left 3 _)]
    omega
  intro l
  induction l with
  | nil => intro a ha; simp
  | cons c cs ih =>
    intro a ha
    simp only [List.foldl_cons, List.foldr_cons]
    rw [ih (max 3 (max a c)) (le_max_left 3 _)]
    omega

theorem getElem?_zip_eq_some {α β : Type} :
    ∀ {l₁ : List α} {l₂ : List β} {i : Nat} {a : α} {b : β},
      l₁[i]? = some a → l₂[i]? = some b → (l₁.zip l₂)[i]? = some (a, b) := by
  intro l₁
  induction l₁ with
  | nil => intro l₂ i a b h1 _; simp at h1
  | cons x xs ih =>
    intro l₂ i a b h1 h2
    cases l₂ with
    | nil => simp at h2
    | cons y ys =>
      cases i with
      | zero =>
        simp only [List.getElem?_cons_zero, Option.some.injEq] at h1 h2
        subst h1; subst h2
        simp [List.zip_cons_cons]
      | succ n =>
        simp only [List.getElem?_cons_succ] at h1 h2
        rw [List.zip_cons_cons, List.getElem?_cons_succ]
        exact ih h1 h2

theorem lookup_eq_none_of_not_mem_keys {β : Type} :
    ∀ {fs : List (String × β)} {k : String},
      k ∉ fs.map Prod.fst → fs.lookup k = none := by
  intro fs
  induction fs with
  | nil => intro k _; rfl
  | cons p ps ih =>
    intro k h
    obtain ⟨a, v⟩ := p
    simp only [List.map_cons, List.mem_cons] at h
    push_neg at h
    obtain ⟨h1, h2⟩ := h
    rw [List.lookup_cons]
    have : (k == a) = false := by simpa using h1
    rw [this]
    exact ih h2

theorem mem_of_lookup_eq_some {β : Type} :
    ∀ {fs : List (String × β)} {k : String} {v : β},
      fs.lookup k = some v → (k, v) ∈ fs := by
  intro fs
  induction fs with
  | nil => intro k v h; simp [List.lookup] at h
  | cons p ps ih =>
    intro k v h
    obtain ⟨a, w⟩ := p
    rw [List.lookup_cons] at h
    cases hbeq : k == a with
    | true =>
      rw [hbeq] at h
      simp only [Option.some.injEq] at h
      have ha : k = a := by simpa using hbeq
      subst ha; subst h
      exact List.mem_cons_self _ _
    | false =>
      rw [hbeq] at h
      exact List.mem_cons_of_mem _ (ih h)

/-! ## Shared lemmas: the generic escaping walk -/

theorem escapePipes_str (r : String → String) (s : String) :
    escapePipes r (.str s) = .str (r s) := by
  rw [escapePipes]

theorem escapePipes_arr (r : String → String) (elems : List Jval) :
    escapePipes r (.arr elems) =
      .arr (elems.map (escapePipes fun t => r (r t))) := by
  rw [escapePipes]
  congr 1
  exact List.attach_map_val elems (escapePipes fun t => r (r t))

theorem escapePipes_obj (r : String → String) (fields : List (String × Jval)) :
    escapePipes r (.obj fields) =
      .obj (fields.map fun kv => (kv.1, escapePipes r kv.2)) := by
  rw [escapePipes]
  congr 1
  exact List.attach_map_val fields fun kv => (kv.1, escapePipes r kv.2)

theorem escapePipes_fn (r : String → String) : escapePipes r .fn = .fn := by
  rw [escapePipes]

theorem escapePipes_other (r : String → String) : escapePipes r .other = .other := by
  rw [escapePipes]

/-- Applying the walk twice with replacer `r` is applying it once with the
doubled replacer; this is the key structural fact behind the definition of
`escapePipes` above. -/
theorem escapePipes_twice (r : String → String) (v : Jval) :
    escapePipes r (escapePipes r v) = escapePipes (fun t => r (r t)) v := by
  refine escapePipes.induct
    (motive := fun rr vv =>
      escapePipes rr (escapePipes rr vv) = escapePipes (fun t => rr (rr t)) vv)
    ?_ ?_ ?_ ?_ ?_ r v
  · intro rr s
    rw [escapePipes_str, escapePipes_str, escapePipes_str]
  · intro rr elems ih
    rw [escapePipes_arr, escapePipes_arr, escapePipes_arr, List.map_map]
    congr 1
    apply List.map_congr_left
    intro e he
    exact ih ⟨e, he⟩
  · intro rr fields ih
    rw [escapePipes_obj, escapePipes_obj, escapePipes_obj, List.map_map]
    congr 1
    apply List.map_congr_left
    intro kv hkv
    simp only [Function.comp_apply]
    exact congrArg (Prod.mk kv.1) (ih ⟨kv, hkv⟩)
  · intro rr
    rw [escapePipes_fn, escapePipes_fn, escapePipes_fn]
  · intro rr
    rw [escapePipes_other, escapePipes_other, escapePipes_other]

/-- `escapePipes` satisfies the source's literal recursion for arrays: every
array element is escaped twice with the same replacer (once by the
`Array.isArray` branch, once more by the object branch over the array's
index keys). -/
theorem escapePipes_arr_source (r : String → String) (elems : List Jval) :
    escapePipes r (.arr elems) =
      .arr (elems.map fun e => escapePipes r (escapePipes r e)) := by
  rw [escapePipes_arr]
  congr 1
  apply List.map_congr_left
  intro e _
  exact (escapePipes_twice r e).symm

/-! ## The JavaScript-object encoding of a table entry -/

/-- The JavaScript value of a column: a bare column is a string; a
structured column is an object whose properties are its present fields. -/
def columnToJval : TableColumn → Jval
  | .bare s => .str s
  | .structured name fld align =>
    .obj ([("name", .str name)] ++
      (match fld with | some v => [("field", .str v)] | none => []) ++
      (match align with | some v => [("align", .str v)] | none => []))

/-- The JavaScript value of a row: a positional row is an array of (string)
cells, a mapping row is an object from field names to cells. -/
def rowToJval : TableRowValue → Jval
  | .positional cells => .arr (cells.map Jval.str)
  | .mapping fields => .obj (fields.map fun kv => (kv.1, .str kv.2))

/-- The JavaScript object underlying a table entry, with absent optional
properties omitted (they are invisible to `Object.keys`). -/
def tableEntryToJval (e : TableEntry) : Jval :=
  .obj ([("table", .obj
      [("columns", .arr (e.table.columns.map columnToJval)),
        ("rows", .arr (e.table.rows.map rowToJval))])] ++
    (match e.append with | some s => [("append", .str s)] | none => []) ++
    (match e.pipeReplacer with | some _ => [("pipeReplacer", .fn)] | none => []) ++
    (match e.prefixCellValues with | some _ => [("prefixCellValues", .other)] | none => []))

theorem escapePipes_columnToJval (r : String → String) (c : TableColumn) :
    escapePipes (fun t => r (r t)) (columnToJval c) =
      columnToJval (escapeColumn (fun t => r (r t)) c) := by
  cases c with
  | bare s => rw [columnToJval, escapePipes_str]; rfl
  | structured name fld align =>
    cases fld <;> cases align <;>
      simp [columnToJval, escapeColumn, escapePipes_obj, escapePipes_str]

theorem escapePipes_rowToJval (r : String → String) (row : TableRowValue) :
    escapePipes (fun t => r (r t)) (rowToJval row) =
      rowToJval (escapeRow (fun t => r (r t)) row) := by
  cases row with
  | positional cells =>
    simp only [rowToJval, escapeRow, escapePipes_arr, List.map_map]
    congr 1
    apply List.map_congr_left
    intro c _
    simp only [Function.comp_apply]
    rw [escapePipes_str]
  | mapping fields =>
    simp only [rowToJval, escapeRow, escapePipes_obj, List.map_map]
    congr 1
    apply List.map_congr_left
    intro kv _
    simp only [Function.comp_apply]
    rw [escapePipes_str]

theorem escapePipes_columns_arr (r : String → String) (cols : List TableColumn) :
    escapePipes r (.arr (cols.map columnToJval)) =
      .arr ((cols.map (escapeColumn fun t => r (r t))).map columnToJval) := by
  rw [escapePipes_arr, List.map_map, List.map_map]
  congr 1
  apply List.map_congr_left
  intro c _
  exact escapePipes_columnToJval r c

theorem escapePipes_rows_arr (r : String → String) (rows : List TableRowValue) :
    escapePipes r (.arr (rows.map rowToJval)) =
      .arr ((rows.map (escapeRow fun t => r (r t))).map rowToJval) := by
  rw [escapePipes_arr, List.map_map, List.map_map]
  congr 1
  apply List.map_congr_left
  intro row _
  exact escapePipes_rowToJval r row

/-- The structured escaping `escapeTableEntry` is exactly the generic
in-place walk `escapePipes` of the source, run on the JavaScript object
underlying the entry: entry property values are escaped once, the elements
of the `columns` and `rows` arrays twice (array indices are also object
keys), mapping-row keys never. -/
theorem escapeTableEntry_models_escapePipes (r : String → String) (e : TableEntry) :
    escapePipes r (tableEntryToJval e) = tableEntryToJval (escapeTableEntry r e) := by
  cases ha : e.append <;> cases hp : e.pipeReplacer <;> cases hc : e.prefixCellValues <;>
    simp only [tableEntryToJval, escapeTableEntry, ha, hp, hc, Option.map_none',
      Option.map_some', escapePipes_obj, List.map_append, List.map_cons,
      List.map_nil, escapePipes_str, escapePipes_fn, escapePipes_other,
      escapePipes_columns_arr, escapePipes_rows_arr]

/-! ## Shared lemmas: padAlign branch computations -/

theorem padAlign_bare_data (t : String) (w : Nat) (name : String) :
    (padAlign t w (.bare name)).data = t.data ++ List.replicate (w - t.length) ' ' := by
  show (padEnd t w ' ').data = _
  rw [padEnd_data]

theorem padAlign_leftish_data (t : String) (w : Nat) (name : String)
    (fld : Option String) {align : Option String}
    (h : align = some "left" ∨ align = none ∨ align = some "") :
    (padAlign t w (.structured name fld align)).data =
      t.data ++ List.replicate (w - t.length) ' ' := by
  have hb : padAlign t w (.structured name fld align) = padEnd t w ' ' := by
    simp only [padAlign]
    rw [if_pos h]
  rw [hb, padEnd_data]

theorem padAlign_right_data (t : String) (w : Nat) (name : String)
    (fld : Option String) :
    (padAlign t w (.structured name fld (some "right"))).data =
      List.replicate (w - t.length) ' ' ++ t.data := by
  show (padStart t w ' ').data = _
  rw [padStart_data]

theorem padAlign_center_data (t : String) (w : Nat) (name : String)
    (fld : Option String) :
    (padAlign t w (.structured name fld (some "center"))).data =
      List.replicate ((w - t.length) / 2) ' ' ++ t.data ++
        List.replicate (w - t.length - (w - t.length) / 2) ' ' := by
  show (padEnd (padStart t (t.length + (w - t.length) / 2) ' ') w ' ').data = _
  rw [padEnd_data, padStart_data]
  have e1 : t.length + (w - t.length) / 2 - t.length = (w - t.length) / 2 := by omega
  have e2 : (padStart t (t.length + (w - t.length) / 2) ' ').length =
      (w - t.length) / 2 + t.length := by
    rw [length_eq_data_length, padStart_data, List.length_append,
      List.length_replicate, e1, length_eq_data_length]
  rw [e1, e2]
  have e3 : w - ((w - t.length) / 2 + t.length) =
      w - t.length - (w - t.length) / 2 := by omega
  rw [e3, List.append_assoc]

theorem padAlign_empty {c : TableColumn} (h : alignValid c = true) (w : Nat) :
    padAlign "" w c = String.mk (List.replicate w ' ') := by
  apply String.ext
  have hnil : ("" : String).data = [] := rfl
  have hzero : ("" : String).length = 0 := rfl
  cases c with
  | bare name => rw [padAlign_bare_data, hnil, hzero, List.nil_append, Nat.sub_zero]
  | structured name fld align =>
    have h' : align = none ∨ align = some "left" ∨ align = some "center" ∨
        align = some "right" := by
      simp only [alignValid, Bool.or_eq_true, beq_iff_eq] at h
      tauto
    rcases h' with h' | h' | h' | h' <;> subst h'
    · rw [padAlign_leftish_data _ _ _ _ (Or.inr (Or.inl rfl)), hnil, hzero,
        List.nil_append, Nat.sub_zero]
    · rw [padAlign_leftish_data _ _ _ _ (Or.inl rfl), hnil, hzero,
        List.nil_append, Nat.sub_zero]
    · rw [padAlign_center_data, hnil, hzero]
      rw [List.append_nil, ← List.replicate_add]
      congr 1
      omega
    · rw [padAlign_right_data, hnil, hzero, List.append_nil, Nat.sub_zero]

/-! ## Shared lemmas: the divider row -/

theorem getLeftSideAlignmentCharacter_eq (c : TableColumn) :
    getLeftSideAlignmentCharacter c =
      if isLeftOrCenterAligned c then ":" else " " := by
  cases c with
  | bare _ => rfl
  | structured n f a =>
    simp only [getLeftSideAlignmentCharacter, isLeftOrCenterAligned]
    by_cases h : a = some "left" ∨ a = some "center"
    · rw [if_pos h]
      have hb : (a == some "left" || a == some "center") = true := by
        rcases h with h | h <;> simp [h]
      simp [hb]
    · rw [if_neg h]
      push_neg at h
      have hb : (a == some "left" || a == some "center") = false := by
        simp [h.1, h.2]
      simp [hb]

theorem getRightSideAlignmentCharacter_eq (c : TableColumn) :
    getRightSideAlignmentCharacter c =
      if isRightOrCenterAligned c then ":" else " " := by
  cases c with
  | bare _ => rfl
  | structured n f a =>
    simp only [getRightSideAlignmentCharacter, isRightOrCenterAligned]
    by_cases h : a = some "right" ∨ a = some "center"
    · rw [if_pos h]
      have hb : (a == some "right" || a == some "center") = true := by
        rcases h with h | h <;> simp [h]
      simp [hb]
    · rw [if_neg h]
      push_neg at h
      have hb : (a == some "right" || a == some "center") = false := by
        simp [h.1, h.2]
      simp [hb]

theorem dividerSegment_data (w : Nat) (c : TableColumn) :
    (getLeftSideAlignmentCharacter c ++ padStart "" w '-' ++
        getRightSideAlignmentCharacter c).data =
      (if isLeftOrCenterAligned c then ':' else ' ') ::
        (List.replicate w '-' ++ [if isRightOrCenterAligned c then ':' else ' ']) := by
  rw [String.data_append, String.data_append, padStart_data,
    getLeftSideAlignmentCharacter_eq, getRightSideAlignmentCharacter_eq]
  have hl : (if isLeftOrCenterAligned c then (":" : String) else " ").data =
      [if isLeftOrCenterAligned c then ':' else ' '] := by
    cases isLeftOrCenterAligned c <;> rfl
  have hr : (if isRightOrCenterAligned c then (":" : String) else " ").data =
      [if isRightOrCenterAligned c then ':' else ' '] := by
    cases isRightOrCenterAligned c <;> rfl
  rw [hl, hr]
  simp

theorem pipe_not_mem_dividerSegment (w : Nat) (c : TableColumn) :
    '|' ∉ (getLeftSideAlignmentCharacter c ++ padStart "" w '-' ++
      getRightSideAlignmentCharacter c).data := by
  rw [dividerSegment_data]
  intro hmem
  rcases List.mem_cons.mp hmem with h | h
  · revert h
    cases isLeftOrCenterAligned c <;> decide
  · rcases List.mem_append.mp h with h | h
    · exact absurd (List.eq_of_mem_replicate h) (by decide)
    · revert h
      cases isRightOrCenterAligned c <;> decide

theorem splitOnChar_cons_self (c : Char) (l : List Char) :
    splitOnChar c (c :: l) = [] :: splitOnChar c l := by
  cases h : splitOnChar c l with
  | nil => exact absurd h (splitOnChar_ne_nil c l)
  | cons g gs =>
    have hsplit : splitOnChar c (c :: l) =
        if c = c then [] :: g :: gs else (c :: g) :: gs := by
      simp only [splitOnChar, h]
    rw [hsplit, if_pos rfl, ← h]

theorem splitOnChar_join_pipe :
    ∀ (parts : List String), parts ≠ [] → (∀ p ∈ parts, '|' ∉ p.data) →
      splitOnChar '|' ((joinWith "|" parts).data ++ ['|']) =
        parts.map String.data ++ [[]] := by
  intro parts
  induction parts with
  | nil => intro h; exact absurd rfl h
  | cons p ps ih =>
    intro _ hp
    cases ps with
    | nil =>
      show splitOnChar '|' (p.data ++ ['|']) = [p.data, []]
      have h1 : p.data ++ ['|'] = p.data ++ '|' :: [] := rfl
      rw [h1, splitOnChar_append_cons [] (hp p (List.mem_cons_self p []))]
      rfl
    | cons q qs =>
      have hmem : '|' ∉ p.data := hp p (List.mem_cons_self p _)
      have hrest : ∀ x ∈ q :: qs, '|' ∉ x.data :=
        fun x hx => hp x (List.mem_cons_of_mem p hx)
      show splitOnChar '|' ((p ++ "|" ++ joinWith "|" (q :: qs)).data ++ ['|']) = _
      have hd : (p ++ "|" ++ joinWith "|" (q :: qs)).data ++ ['|'] =
          p.data ++ '|' :: ((joinWith "|" (q :: qs)).data ++ ['|']) := by
        rw [String.data_append, String.data_append]
        have : ("|" : String).data = ['|'] := rfl
        rw [this]
        simp
      rw [hd, splitOnChar_append_cons _ hmem, ih (by simp) hrest]
      rfl

/-- Splitting the full divider-row pattern on pipes. -/
theorem splitOnChar_pipe_wrap (parts : List String) (hne : parts ≠ [])
    (hp : ∀ p ∈ parts, '|' ∉ p.data) :
    splitOnChar '|' ("|" ++ joinWith "|" parts ++ "|").data =
      [] :: (parts.map String.data ++ [[]]) := by
  have hd : ("|" ++ joinWith "|" parts ++ "|").data =
      '|' :: ((joinWith "|" parts).data ++ ['|']) := by
    rw [String.data_append, String.data_append]
    have : ("|" : String).data = ['|'] := rfl
    rw [this]
    simp
  rw [hd, splitOnChar_cons_self, splitOnChar_join_pipe parts hne hp]

/-! ## Shared lemmas: newline counting of each emitted row -/

theorem count_data_headerRow_zero (e : TableEntry) (ws : List Nat)
    (cols : List TableColumn)
    (hnames : ∀ col ∈ e.table.columns, '\n' ∉ (getColumnName col).data) :
    (buildHeaderRow e ws cols).data.count '\n' = 0 := by
  rw [buildHeaderRow, String.data_append, String.data_append,
    List.count_append, List.count_append]
  have h1 : ("| " : String).data.count '\n' = 0 := by decide
  have h2 : (" |" : String).data.count '\n' = 0 := by decide
  have h3 : (joinWith " | "
      ((e.table.columns.zip (ws.zip cols)).map fun cwc =>
        padAlign (getColumnName cwc.1) cwc.2.1 cwc.2.2)).data.count '\n' = 0 := by
    apply count_data_joinWith_zero _ (by decide)
    intro p hp
    obtain ⟨cwc, hmem, rfl⟩ := List.mem_map.mp hp
    rw [count_data_padAlign '\n' (by decide)]
    rw [List.count_eq_zero]
    exact hnames cwc.1 (List.of_mem_zip hmem).1
  omega

theorem count_data_dividerRow_zero (ws : List Nat) (cols : List TableColumn) :
    (buildDividerRow ws cols).data.count '\n' = 0 := by
  rw [buildDividerRow, String.data_append, String.data_append,
    List.count_append, List.count_append]
  have h1 : ("|" : String).data.count '\n' = 0 := by decide
  have h3 : (joinWith "|"
      ((ws.zip cols).map fun wc =>
        getLeftSideAlignmentCharacter wc.2 ++ padStart "" wc.1 '-' ++
          getRightSideAlignmentCharacter wc.2)).data.count '\n' = 0 := by
    apply count_data_joinWith_zero _ (by decide)
    intro p hp
    obtain ⟨wc, hmem, rfl⟩ := List.mem_map.mp hp
    rw [dividerSegment_data, List.count_cons, List.count_append,
      List.count_replicate]
    have hl : ((if isLeftOrCenterAligned wc.2 then ':' else ' ') == '\n') = false := by
      cases isLeftOrCenterAligned wc.2 <;> decide
    have hr : List.count '\n' [if isRightOrCenterAligned wc.2 then ':' else ' '] = 0 := by
      cases isRightOrCenterAligned wc.2 <;> decide
    rw [hl, hr]
    simp
  omega

theorem count_data_dataRow_zero (e : TableEntry) (ws : List Nat)
    (cols : List TableColumn) (options : RenderOptions) (row : TableRowValue)
    (hrow : rowSingleLine (e.prefixCellValues.getD true) options row) :
    ("| " ++ joinWith " | " (buildDataRowCells e ws cols options row) ++ " |").data.count
      '\n' = 0 := by
  rw [String.data_append, String.data_append, List.count_append, List.count_append]
  have h1 : ("| " : String).data.count '\n' = 0 := by decide
  have h2 : (" |" : String).data.count '\n' = 0 := by decide
  have h3 : (joinWith " | " (buildDataRowCells e ws cols options row)).data.count
      '\n' = 0 := by
    apply count_data_joinWith_zero _ (by decide)
    intro p hp
    cases row with
    | positional cells =>
      simp only [buildDataRowCells] at hp
      obtain ⟨cwc, hmem, rfl⟩ := List.mem_map.mp hp
      rw [count_data_padAlign '\n' (by decide), List.count_eq_zero]
      exact hrow cwc.1 (List.of_mem_zip hmem).1
    | mapping fields =>
      simp only [buildDataRowCells] at hp
      obtain ⟨cwc, hmem, rfl⟩ := List.mem_map.mp hp
      rw [count_data_padAlign '\n' (by decide), List.count_eq_zero]
      cases hlk : fields.lookup (getDataRowPropertyName cwc.1) with
      | none => simp [renderCellTextOrEmpty]
      | some v =>
        simp only [renderCellTextOrEmpty]
        exact hrow (getDataRowPropertyName cwc.1, v) (mem_of_lookup_eq_some hlk)
  omega

/-! ## Shared lemmas: the cell emitted for a missing mapping value -/

theorem dataRowCell_of_lookup_none (e : TableEntry) (cellWidths : List Nat)
    (options : RenderOptions) (fields : List (String × String)) {i : Nat}
    {col : TableColumn} {w : Nat}
    (hcol : e.table.columns[i]? = some col)
    (hw : cellWidths[i]? = some w)
    (halign : alignValid col = true)
    (hmiss : fields.lookup (getDataRowPropertyName col) = none) :
    (buildDataRowCells e cellWidths e.table.columns options
      (.mapping fields))[i]? = some (String.mk (List.replicate w ' ')) := by
  simp only [buildDataRowCells]
  rw [List.getElem?_map,
    getElem?_zip_eq_some hcol (getElem?_zip_eq_some hw hcol), Option.map_some']
  rw [hmiss]
  simp only [renderCellTextOrEmpty]
  rw [padAlign_empty halign]

/-! ## Claim theorems -/

/-- Claim C1 (code evaluation at the failing input): a cell resolving to the
two-line string "line1\nline2" does NOT make the render call fail.  The
width-computation guard is `typeof result === 'string'`, and the result of
`renderCellText` is always a string (the external `renderEntries` returns a
string by its contract), so the "Multi-line table cell content is not
supported" throw is unreachable: `tableRenderer` returns `ok` and the
line break is embedded verbatim in the emitted data row, mangling the
table, contrary to the claim and to the error message's own intent. -/
theorem c1_multiline_cell_renders_without_error :
    tableRenderer (.tableEntry multilineEntry) optsEmpty =
      .ok { markdown := "| Name        |\n| ----------- |\n| line1\nline2 |",
            blockLevel := true } := rfl

/-- Claim C5: padding behaviour of `padAlign` for a cell text of length at
most the column width.  Bare-string columns, unaligned structured columns
and left-aligned columns right-pad with spaces to the width; right-aligned
columns left-pad; center-aligned columns left-pad to
`|t| + (width - |t|) / 2` and then right-pad to the width, and the left
padding never exceeds the right padding (odd leftover space lands on the
right). -/
theorem c5_padAlign_spec (t : String) (w : Nat) (name : String)
    (fld : Option String) (h : t.length ≤ w) :
    padAlign t w (.bare name) =
      String.mk (t.data ++ List.replicate (w - t.length) ' ') ∧
    padAlign t w (.structured name fld none) =
      String.mk (t.data ++ List.replicate (w - t.length) ' ') ∧
    padAlign t w (.structured name fld (some "left")) =
      String.mk (t.data ++ List.replicate (w - t.length) ' ') ∧
    padAlign t w (.structured name fld (some "right")) =
      String.mk (List.replicate (w - t.length) ' ' ++ t.data) ∧
    padAlign t w (.structured name fld (some "center")) =
      String.mk (List.replicate ((w - t.length) / 2) ' ' ++ t.data ++
        List.replicate (w - t.length - (w - t.length) / 2) ' ') ∧
    (w - t.length) / 2 ≤ w - t.length - (w - t.length) / 2 := by
  refine ⟨?_, ?_, ?_, ?_, ?_, by omega⟩
  · exact String.ext (padAlign_bare_data t w name)
  · exact String.ext (padAlign_leftish_data t w name fld (Or.inr (Or.inl rfl)))
  · exact String.ext (padAlign_leftish_data t w name fld (Or.inl rfl))
  · exact String.ext (padAlign_right_data t w name fld)
  · exact String.ext (padAlign_center_data t w name fld)

theorem c5_padAlign_spec_witness :
    ("ab" : String).length ≤ 5 ∧
    padAlign "ab" 5 (.bare "N") = "ab   " ∧
    padAlign "ab" 5 (.structured "N" none (some "center")) = " ab  " ∧
    padAlign "ab" 5 (.structured "N" none (some "right")) = "   ab" := by
  have h := c5_padAlign_spec "ab" 5 "N" none (by decide)
  refine ⟨by decide, ?_, ?_, ?_⟩
  · rw [h.1]; decide
  · rw [h.2.2.2.2.1]; decide
  · rw [h.2.2.2.1]; decide

/-- Claim C6 (counterexample): the claim predicts every emitted data row has
exactly `columns.length` cell fields with missing values padded as empty
cells; but for a positional row the source maps over the row's own cells,
so a one-cell positional row against two columns emits a single cell — the
data row is `"| x   |"`, not `"| x   |     |"`. -/
theorem c6_counterexample :
    getTableMarkdown shortRowEntry optsEmpty =
      "| A   | B   |\n| --- | --- |\n| x   |" ∧
    (buildDataRowCells (escapeTableEntry defaultPipeReplacer shortRowEntry)
      (computeCellWidths (escapeTableEntry defaultPipeReplacer shortRowEntry) optsEmpty)
      (escapeTableEntry defaultPipeReplacer shortRowEntry).table.columns optsEmpty
      (.positional ["x"])).length = 1 ∧
    shortRowEntry.table.columns.length = 2 := by
  refine ⟨by decide, by decide, by decide⟩

/-- Claim C6 (amended): a mapping row always emits exactly `columns.length`
cells (missing values become empty padded cells, see the C7 theorem), while
a positional row emits exactly one cell per element of the row itself —
`columns.length` cells only when the row has full length.  Stated for the
pipeline situation where the width list and column parameter match
`entry.table.columns`, and for positional rows no longer than the column
list (longer ones crash the source with a `TypeError`). -/
theorem c6_data_row_cell_counts (entry : TableEntry) (cellWidths : List Nat)
    (columns : List TableColumn) (options : RenderOptions)
    (fields : List (String × String)) (cells : List String)
    (hw : cellWidths.length = entry.table.columns.length)
    (hc : columns.length = entry.table.columns.length)
    (hcells : cells.length ≤ columns.length) :
    (buildDataRowCells entry cellWidths columns options (.mapping fields)).length =
      columns.length ∧
    (buildDataRowCells entry cellWidths columns options (.positional cells)).length =
      cells.length := by
  constructor <;>
    simp only [buildDataRowCells, List.length_map, List.length_zip] <;> omega

theorem c6_data_row_cell_counts_witness :
    (buildDataRowCells shortRowEntry [3, 3] shortRowEntry.table.columns optsEmpty
      (.mapping [])).length = 2 ∧
    (buildDataRowCells shortRowEntry [3, 3] shortRowEntry.table.columns optsEmpty
      (.positional ["x"])).length = 1 := by
  have h := c6_data_row_cell_counts shortRowEntry [3, 3]
    shortRowEntry.table.columns optsEmpty [] ["x"]
    (by decide) (by decide) (by decide)
  exact ⟨h.1, h.2⟩

/-- Claim C7: in a mapping row, a column whose resolved field key misses the
mapping emits a fully space-padded cell of exactly the column's computed
width (for columns whose alignment is one of the typed values
left/center/right or absent).  The value `""` for the missing lookup is
modelled from the spec (the external renderer's result for `undefined`). -/
theorem c7_missing_mapping_value_blank_cell (entry : TableEntry)
    (options : RenderOptions) (fields : List (String × String)) (i : Nat)
    (col : TableColumn) (w : Nat)
    (hcol : entry.table.columns[i]? = some col)
    (hw : (computeCellWidths entry options)[i]? = some w)
    (halign : alignValid col = true)
    (hmiss : fields.lookup (getDataRowPropertyName col) = none) :
    (buildDataRowCells entry (computeCellWidths entry options)
      entry.table.columns options (.mapping fields))[i]? =
      some (String.mk (List.replicate w ' ')) :=
  dataRowCell_of_lookup_none entry (computeCellWidths entry options) options
    fields hcol hw halign hmiss

theorem c7_missing_mapping_value_blank_cell_witness :
    (buildDataRowCells rightAlignedEntry
      (computeCellWidths rightAlignedEntry optsEmpty)
      rightAlignedEntry.table.columns optsEmpty (.mapping []))[0]? =
      some "   " := by
  have h := c7_missing_mapping_value_blank_cell rightAlignedEntry optsEmpty []
    0 (.structured "A" (some "k") (some "right")) 3
    (by decide) (by decide) (by decide) (by decide)
  rw [h]
  decide

/-- Claim C8 (counterexample, proving the claim's negation): with the
default pipe replacer there is NO string containing a pipe on which
escaping fails to be idempotent — the replacement text `&#124;` contains no
pipe character, so an escaped string is pipe-free and escaping it again is
the identity. -/
theorem c8_counterexample :
    ¬ ∃ s : String, '|' ∈ s.data ∧
      defaultPipeReplacer (defaultPipeReplacer s) ≠ defaultPipeReplacer s := by
  rintro ⟨s, -, hne⟩
  exact hne (defaultPipeReplacer_idem s)

/-- Claim C8 (amended): escaping with the default pipe replacer IS
idempotent, both as the bare replacer and as the `escapePipes` walk on a
string value: the replacement `&#124;` contains no `|`, so a second pass
finds nothing to replace. -/
theorem c8_default_escaping_idempotent (s : String) :
    defaultPipeReplacer (defaultPipeReplacer s) = defaultPipeReplacer s ∧
    escapePipes defaultPipeReplacer (escapePipes defaultPipeReplacer (.str s)) =
      escapePipes defaultPipeReplacer (.str s) := by
  refine ⟨defaultPipeReplacer_idem s, ?_⟩
  rw [escapePipes_str, escapePipes_str, defaultPipeReplacer_idem s]

/-- Claim C9: an entry lacking the `table` property is rejected by
`tableRenderer` with the distinct "Entry is not a table entry" error, no
result record is produced, and — the throw happening before `escapePipes`
is ever reached — the caller's entry object is left unmodified. -/
theorem c9_wrong_entry_kind (fields : List (String × Jval))
    (options : RenderOptions) :
    tableRendererWithState (.otherEntry fields) options =
      (.otherEntry fields, .error "Entry is not a table entry. Unable to render.") ∧
    tableRenderer (.otherEntry fields) options =
      .error "Entry is not a table entry. Unable to render." ∧
    "Entry is not a table entry. Unable to render." ≠
      "Unknown table rendering scenario encountered. Multi-line table cell content is not supported." :=
  ⟨rfl, rfl, by decide⟩

/-- Claim C2 (counterexample): the claim says divider segments are `width`
dashes with optional colons and no interior spaces, and that bare-string
columns get neither colon; but each side lacking a colon is filled with a
space character, so for one bare column of width 3 the divider is
`"| --- |"`, not `"|---|"`. -/
theorem c2_divider_counterexample :
    buildDividerRow [3] [TableColumn.bare "abc"] = "| --- |" ∧
    ("| --- |" : String) ≠ "|---|" ∧
    ("| --- |" : String).data.count ' ' = 2 := by
  refine ⟨by decide, by decide, by decide⟩

/-- Claim C2 (amended): splitting the divider row on pipes yields exactly
one segment per (width, column) pair, framed by two empty groups (the
leading and trailing pipe); each segment is exactly `width` dashes,
preceded by `:` for left- or center-aligned structured columns and by a
space otherwise, and followed by `:` for right- or center-aligned
structured columns and by a space otherwise — bare-string columns get
spaces, not colons, on both sides. -/
theorem c2_divider_row_spec (cellWidths : List Nat) (columns : List TableColumn)
    (hne : cellWidths.zip columns ≠ []) :
    splitOnChar '|' (buildDividerRow cellWidths columns).data =
      [] :: (((cellWidths.zip columns).map fun wc =>
        (if isLeftOrCenterAligned wc.2 then ':' else ' ') ::
          (List.replicate wc.1 '-' ++
            [if isRightOrCenterAligned wc.2 then ':' else ' '])) ++ [[]]) := by
  rw [buildDividerRow]
  rw [splitOnChar_pipe_wrap _
    (by
      intro hx
      exact hne (List.map_eq_nil_iff.mp hx))
    (by
      intro p hp
      obtain ⟨wc, hmem, rfl⟩ := List.mem_map.mp hp
      exact pipe_not_mem_dividerSegment wc.1 wc.2)]
  rw [List.map_map]
  congr 2
  apply List.map_congr_left
  intro wc _
  exact dividerSegment_data wc.1 wc.2

theorem c2_divider_row_spec_witness :
    splitOnChar '|'
        (buildDividerRow [4] [TableColumn.structured "Cost" none (some "right")]).data =
      [[], [' ', '-', '-', '-', '-', ':'], []] := by
  have h := c2_divider_row_spec [4]
    [TableColumn.structured "Cost" none (some "right")] (by decide)
  rw [h]
  decide

/-- Claim C4: the computed width of column `i` is the maximum of 3, the
header display-name length, and the rendered-text lengths of exactly those
rows whose value in column `i` is defined (undefined values contribute no
candidate). -/
theorem c4_column_width_formula (entry : TableEntry) (options : RenderOptions)
    (i : Nat) (col : TableColumn)
    (hcol : entry.table.columns[i]? = some col) :
    (computeCellWidths entry options)[i]? =
      some (max 3 (max (getColumnHeaderTextLength col)
        (((entry.table.rows.filterMap (rowColumnValue col i)).map fun v =>
          (renderCellText v options (entry.prefixCellValues.getD true)).length).foldr
            max 0))) := by
  simp only [computeCellWidths]
  rw [List.getElem?_map, List.getElem?_enum, hcol, Option.map_some',
    Option.map_some']
  congr 1
  show (getColumnHeaderTextLength col ::
      ((entry.table.rows.foldl
        (fun prev curr => (rowColumnValue col i curr).elim prev fun value =>
          prev ++ [renderCellText value options (entry.prefixCellValues.getD true)])
        []).map String.length)).foldl (fun prev curr => max 3 (max prev curr)) 0 = _
  have hgen : ∀ (rows : List TableRowValue) (acc : List String),
      rows.foldl
        (fun prev curr => (rowColumnValue col i curr).elim prev fun value =>
          prev ++ [renderCellText value options (entry.prefixCellValues.getD true)])
        acc =
      acc ++ (rows.filterMap (rowColumnValue col i)).map
        (fun v => renderCellText v options (entry.prefixCellValues.getD true)) := by
    intro rows
    induction rows with
    | nil => intro acc; simp
    | cons x xs ih =>
      intro acc
      simp only [List.foldl_cons]
      cases hx : rowColumnValue col i x with
      | none => simp [hx, ih, List.filterMap_cons]
      | some v => simp [hx, ih, List.filterMap_cons]
  have hcollect := hgen entry.table.rows []
  rw [List.nil_append] at hcollect
  rw [hcollect, List.map_map, foldl_max3]
  rfl

theorem c4_column_width_formula_witness :
    widthSampleEntry.table.columns[0]? = some (.bare "Name") ∧
    (computeCellWidths widthSampleEntry optsEmpty)[0]? = some 4 := by
  refine ⟨by decide, ?_⟩
  have h := c4_column_width_formula widthSampleEntry optsEmpty 0 (.bare "Name")
    (by decide)
  rw [h]
  decide

/-- Claim C3 (counterexample): rendering succeeds on a table whose single
cell resolves to a two-line string (the multi-line guard is dead code, see
the C1 theorem), and the produced markdown then splits into 4 lines, not
`rows.length + 2 = 3`. -/
theorem c3_counterexample :
    lineCount (getTableMarkdown multilineEntry optsEmpty) = 4 ∧
    multilineEntry.table.rows.length + 2 = 3 := by
  refine ⟨by decide, by decide⟩

/-- Claim C3 (amended): provided every column display name and every
rendered cell text of the escaped entry is single-line (and positional rows
fit the column count, staying inside the domain where the source does not
crash), the produced markdown has exactly `rows.length + 2` lines: one
header, one divider, one line per row. -/
theorem c3_line_count (e : TableEntry) (options : RenderOptions)
    (_hfit : RowsFit (escapeTableEntry (e.pipeReplacer.getD defaultPipeReplacer) e))
    (h : SingleLineEntry (escapeTableEntry (e.pipeReplacer.getD defaultPipeReplacer) e)
      options) :
    lineCount (getTableMarkdown e options) = e.table.rows.length + 2 := by
  obtain ⟨hnames, hrows⟩ := h
  have hmd : getTableMarkdown e options =
      joinWith "\n"
        (buildHeaderRow (escapeTableEntry (e.pipeReplacer.getD defaultPipeReplacer) e)
            (computeCellWidths
              (escapeTableEntry (e.pipeReplacer.getD defaultPipeReplacer) e) options)
            (escapeTableEntry (e.pipeReplacer.getD defaultPipeReplacer) e).table.columns ::
          buildDividerRow
            (computeCellWidths
              (escapeTableEntry (e.pipeReplacer.getD defaultPipeReplacer) e) options)
            (escapeTableEntry (e.pipeReplacer.getD defaultPipeReplacer) e).table.columns ::
            buildDataRows
              (escapeTableEntry (e.pipeReplacer.getD defaultPipeReplacer) e)
              (computeCellWidths
                (escapeTableEntry (e.pipeReplacer.getD defaultPipeReplacer) e) options)
              (escapeTableEntry (e.pipeReplacer.getD defaultPipeReplacer) e).table.columns
              options) := rfl
  rw [hmd, lineCount, splitOnChar_length, count_data_joinWith '\n' "\n" _ (by simp)]
  have hsep : ("\n" : String).data.count '\n' = 1 := by decide
  have hH : (buildHeaderRow (escapeTableEntry (e.pipeReplacer.getD defaultPipeReplacer) e)
      (computeCellWidths (escapeTableEntry (e.pipeReplacer.getD defaultPipeReplacer) e)
        options)
      (escapeTableEntry (e.pipeReplacer.getD defaultPipeReplacer) e).table.columns).data.count
        '\n' = 0 :=
    count_data_headerRow_zero _ _ _ hnames
  have hD : (buildDividerRow
      (computeCellWidths (escapeTableEntry (e.pipeReplacer.getD defaultPipeReplacer) e)
        options)
      (escapeTableEntry (e.pipeReplacer.getD defaultPipeReplacer) e).table.columns).data.count
        '\n' = 0 :=
    count_data_dividerRow_zero _ _
  have hRows : ((buildDataRows (escapeTableEntry (e.pipeReplacer.getD defaultPipeReplacer) e)
      (computeCellWidths (escapeTableEntry (e.pipeReplacer.getD defaultPipeReplacer) e)
        options)
      (escapeTableEntry (e.pipeReplacer.getD defaultPipeReplacer) e).table.columns
      options).map fun p => p.data.count '\n').sum = 0 := by
    rw [buildDataRows, List.map_map]
    apply List.sum_eq_zero
    intro x hx
    obtain ⟨row, hmem, rfl⟩ := List.mem_map.mp hx
    exact count_data_dataRow_zero _ _ _ options row (hrows row hmem)
  have hlen : (buildDataRows (escapeTableEntry (e.pipeReplacer.getD defaultPipeReplacer) e)
      (computeCellWidths (escapeTableEntry (e.pipeReplacer.getD defaultPipeReplacer) e)
        options)
      (escapeTableEntry (e.pipeReplacer.getD defaultPipeReplacer) e).table.columns
      options).length = e.table.rows.length := by
    rw [buildDataRows, List.length_map]
    show ((escapeTableEntry (e.pipeReplacer.getD defaultPipeReplacer) e).table.rows).length = _
    rw [escapeTableEntry]
    exact List.length_map _ _
  simp only [List.map_cons, List.sum_cons, List.length_cons, hH, hD, hRows, hsep,
    hlen]
  omega

theorem c3_line_count_witness :
    RowsFit (escapeTableEntry (simpleEntry.pipeReplacer.getD defaultPipeReplacer)
      simpleEntry) ∧
    SingleLineEntry (escapeTableEntry (simpleEntry.pipeReplacer.getD defaultPipeReplacer)
      simpleEntry) optsEmpty ∧
    lineCount (getTableMarkdown simpleEntry optsEmpty) = 3 := by
  refine ⟨by decide, by decide, ?_⟩
  have h := c3_line_count simpleEntry optsEmpty (by decide) (by decide)
  rw [h]
  decide

/-- For a column with a typed alignment, the doubled default replacer fixes
the alignment string (none of `left`, `center`, `right` contains a pipe). -/
theorem align_fixed_of_valid {n : String} {fo : Option String} {a : Option String}
    (h : alignValid (TableColumn.structured n fo a) = true) :
    a.map (fun t => defaultPipeReplacer (defaultPipeReplacer t)) = a := by
  have h' : a = none ∨ a = some "left" ∨ a = some "center" ∨ a = some "right" := by
    simp only [alignValid, Bool.or_eq_true, beq_iff_eq] at h
    tauto
  rcases h' with h' | h' | h' | h' <;> subst h' <;> decide

/-- Claim C10 (counterexample): the claim asserts that after escaping, the
stored field key of a pipe-containing field equals no mapping row's key, so
the column's lookups always miss; but a row whose literal key is the
escaped string `a&#124;b` IS found — the data cell renders the value `X`
instead of a blank cell. -/
theorem c10_counterexample :
    getTableMarkdown escapedKeyEntry optsEmpty = "| H   |\n| --- |\n| X   |" ∧
    List.lookup (defaultPipeReplacer "a|b") [("a&#124;b", "X")] = some "X" := by
  refine ⟨by decide, by decide⟩

/-- Claim C10 (amended): the escaping pass rewrites every string value of
the entry — `append`, column names and fields (twice, hence once after
idempotence with the default replacer) — while leaving mapping-row keys
untouched; for a structured column whose field contains `|` (default
replacer, typed alignment), the stored field key becomes the escaped
string, which differs from the original; consequently, for every mapping
row whose keys do not contain the escaped field — in particular rows keyed
by the original field — the lookup misses and the cell renders as a fully
space-padded empty cell of the computed width.  (A row that happens to have
the escaped string as a literal key is still found, see the
counterexample.) -/
theorem c10_escaped_field_misses (e : TableEntry) (options : RenderOptions)
    (i : Nat) (n f : String) (a : Option String)
    (fields : List (String × String)) (w : Nat)
    (hcol : e.table.columns[i]? = some (.structured n (some f) a))
    (hf : '|' ∈ f.data)
    (halign : alignValid (TableColumn.structured n (some f) a) = true)
    (hmiss : defaultPipeReplacer f ∉ fields.map Prod.fst)
    (hw : (computeCellWidths (escapeTableEntry defaultPipeReplacer e) options)[i]? =
      some w) :
    (escapeTableEntry defaultPipeReplacer e).append =
      e.append.map defaultPipeReplacer ∧
    (escapeTableEntry defaultPipeReplacer e).table.columns[i]? =
      some (.structured (defaultPipeReplacer n) (some (defaultPipeReplacer f)) a) ∧
    defaultPipeReplacer f ≠ f ∧
    escapeRow (fun t => defaultPipeReplacer (defaultPipeReplacer t)) (.mapping fields) =
      .mapping (fields.map fun kv => (kv.1, defaultPipeReplacer kv.2)) ∧
    (fields.map fun kv => (kv.1, defaultPipeReplacer kv.2)).lookup
      (defaultPipeReplacer f) = none ∧
    (buildDataRowCells (escapeTableEntry defaultPipeReplacer e)
      (computeCellWidths (escapeTableEntry defaultPipeReplacer e) options)
      (escapeTableEntry defaultPipeReplacer e).table.columns options
      (escapeRow (fun t => defaultPipeReplacer (defaultPipeReplacer t))
        (.mapping fields)))[i]? =
      some (String.mk (List.replicate w ' ')) := by
  have happend : (escapeTableEntry defaultPipeReplacer e).append =
      e.append.map defaultPipeReplacer := rfl
  have hcol' : (escapeTableEntry defaultPipeReplacer e).table.columns[i]? =
      some (.structured (defaultPipeReplacer n) (some (defaultPipeReplacer f)) a) := by
    show (e.table.columns.map
        (escapeColumn fun t => defaultPipeReplacer (defaultPipeReplacer t)))[i]? = _
    rw [List.getElem?_map, hcol, Option.map_some']
    simp only [escapeColumn, Option.map_some']
    rw [defaultPipeReplacer_idem n, defaultPipeReplacer_idem f,
      align_fixed_of_valid halign]
  have hne : defaultPipeReplacer f ≠ f := defaultPipeReplacer_ne_of_mem hf
  have herow : escapeRow (fun t => defaultPipeReplacer (defaultPipeReplacer t))
      (.mapping fields) =
      .mapping (fields.map fun kv => (kv.1, defaultPipeReplacer kv.2)) := by
    simp only [escapeRow]
    congr 1
    apply List.map_congr_left
    intro kv _
    rw [defaultPipeReplacer_idem kv.2]
  have hkeys : (fields.map fun kv => (kv.1, defaultPipeReplacer kv.2)).map Prod.fst =
      fields.map Prod.fst := by
    simp
  have hlook : (fields.map fun kv => (kv.1, defaultPipeReplacer kv.2)).lookup
      (defaultPipeReplacer f) = none := by
    apply lookup_eq_none_of_not_mem_keys
    rw [hkeys]
    exact hmiss
  refine ⟨happend, hcol', hne, herow, hlook, ?_⟩
  rw [herow]
  have halign' : alignValid (TableColumn.structured (defaultPipeReplacer n)
      (some (defaultPipeReplacer f)) a) = true := halign
  have hlook' : (fields.map fun kv => (kv.1, defaultPipeReplacer kv.2)).lookup
      (getDataRowPropertyName (TableColumn.structured (defaultPipeReplacer n)
        (some (defaultPipeReplacer f)) a)) = none := hlook
  exact dataRowCell_of_lookup_none (escapeTableEntry defaultPipeReplacer e)
    (computeCellWidths (escapeTableEntry defaultPipeReplacer e) options) options
    (fields.map fun kv => (kv.1, defaultPipeReplacer kv.2)) hcol' hw halign' hlook'

theorem c10_escaped_field_misses_witness :
    defaultPipeReplacer "a|b" ≠ "a|b" ∧
    (buildDataRowCells (escapeTableEntry defaultPipeReplacer plainKeyEntry)
      (computeCellWidths (escapeTableEntry defaultPipeReplacer plainKeyEntry) optsEmpty)
      (escapeTableEntry defaultPipeReplacer plainKeyEntry).table.columns optsEmpty
      (escapeRow (fun t => defaultPipeReplacer (defaultPipeReplacer t))
        (.mapping [("a|b", "val")])))[0]? = some "   " := by
  have h := c10_escaped_field_misses plainKeyEntry optsEmpty 0 "H" "a|b" none
    [("a|b", "val")] 3 (by decide) (by decide) (by decide) (by decide) (by decide)
  refine ⟨h.2.2.1, ?_⟩
  rw [h.2.2.2.2.2]
  decide
